import Mathlib

/-!
Verification of the model-viewer's asset-resolution pipeline, temporary-handle
lifecycle, adaptive scene look and camera auto-framing, shallowly embedded from
`src/views/HomeView.vue`.

Machine numbers are modelled as `ℚ` (the viewer performs no overflowing
integer arithmetic), JavaScript exceptions as `Option` (with `none` standing
for a thrown exception), and browser built-ins (`decodeURIComponent`,
`URL.createObjectURL`, `new URL`) as explicit Lean functions documented at
their definition sites.
-/

namespace ModelViewer

/-- Models JavaScript `String.prototype.toLowerCase` on the ASCII range
(`Char.toLower` lowercases exactly `A`–`Z`), which covers every file name and
reference string the claims quantify over. -/
def jsLower (s : String) : String :=
  String.mk (s.data.map Char.toLower)

/-- Models JavaScript `String.prototype.endsWith` (no position argument):
the suffix test on the character sequence. -/
def jsEndsWith (s suffix : String) : Bool :=
  decide (suffix.data.length ≤ s.data.length)
    && decide (s.data.drop (s.data.length - suffix.data.length) = suffix.data)

/-- Value of an ASCII hex digit, `none` otherwise. -/
def hexVal? (c : Char) : Option Nat :=
  if '0' ≤ c ∧ c ≤ '9' then some (c.toNat - '0'.toNat)
  else if 'a' ≤ c ∧ c ≤ 'f' then some (c.toNat - 'a'.toNat + 10)
  else if 'A' ≤ c ∧ c ≤ 'F' then some (c.toNat - 'A'.toNat + 10)
  else none

/-- Token stream produced by scanning a URI component: a literal character, or
one byte coming from a well-formed `%XX` escape. -/
inductive UriTok where
  | plain (c : Char)
  | byte (b : Nat)
deriving DecidableEq

/-- Scans the input for `%XX` escapes.  A `%` not followed by two hex digits
makes JavaScript `decodeURIComponent` throw `URIError`, modelled by `none`. -/
def uriTokens : List Char → Option (List UriTok)
  | [] => some []
  | c :: rest =>
      if c = '%' then
        match rest with
        | c1 :: c2 :: rest2 => do
            let h1 ← hexVal? c1
            let h2 ← hexVal? c2
            let toks ← uriTokens rest2
            pure (UriTok.byte (16 * h1 + h2) :: toks)
        | _ => none
      else do
        let toks ← uriTokens rest
        pure (UriTok.plain c :: toks)

/-- Payload of a UTF-8 continuation byte (`0x80`–`0xBF`), `none` otherwise;
literal characters never continue a multi-byte sequence. -/
def contVal? : UriTok → Option Nat
  | UriTok.byte b => if 0x80 ≤ b ∧ b ≤ 0xBF then some (b - 0x80) else none
  | UriTok.plain _ => none

/-- Strict UTF-8 decoding of the escape bytes interleaved with literal
characters, as specified for `decodeURIComponent`: bytes from `%XX` escapes
must form valid UTF-8 sequences (no overlong forms, no surrogate code points,
nothing above `0x10FFFF`); any violation throws, modelled by `none`. -/
def utf8Run : List UriTok → Option (List Char)
  | [] => some []
  | UriTok.plain c :: rest => do
      let cs ← utf8Run rest
      pure (c :: cs)
  | UriTok.byte b :: rest =>
      if b ≤ 0x7F then do
        let cs ← utf8Run rest
        pure (Char.ofNat b :: cs)
      else if 0xC2 ≤ b ∧ b ≤ 0xDF then
        match rest with
        | t1 :: rest2 => do
            let v1 ← contVal? t1
            let cs ← utf8Run rest2
            pure (Char.ofNat ((b - 0xC0) * 0x40 + v1) :: cs)
        | _ => none
      else if 0xE0 ≤ b ∧ b ≤ 0xEF then
        match rest with
        | t1 :: t2 :: rest2 => do
            let v1 ← contVal? t1
            let v2 ← contVal? t2
            let cp := (b - 0xE0) * 0x1000 + v1 * 0x40 + v2
            if cp < 0x800 ∨ (0xD800 ≤ cp ∧ cp ≤ 0xDFFF) then none
            else do
              let cs ← utf8Run rest2
              pure (Char.ofNat cp :: cs)
        | _ => none
      else if 0xF0 ≤ b ∧ b ≤ 0xF4 then
        match rest with
        | t1 :: t2 :: t3 :: rest2 => do
            let v1 ← contVal? t1
            let v2 ← contVal? t2
            let v3 ← contVal? t3
            let cp := (b - 0xF0) * 0x40000 + v1 * 0x1000 + v2 * 0x40 + v3
            if cp < 0x10000 ∨ 0x10FFFF < cp then none
            else do
              let cs ← utf8Run rest2
              pure (Char.ofNat cp :: cs)
        | _ => none
      else none

/-- Models the JavaScript built-in `decodeURIComponent`; `none` models a
thrown `URIError` (malformed escape or invalid UTF-8 byte sequence). -/
def jsDecodeURIComponent (s : String) : Option String := do
  let toks ← uriTokens s.data
  let cs ← utf8Run toks
  pure (String.mk cs)

/-- Embeds the regex step `.replace(/^blob:[^\x7b0,1\x7d/]+[/]/, '')` of
`normalizeAssetPath` (written there as `^blob:` followed by one or more
non-slash characters and a slash): strips a leading `blob:` origin prefix. -/
def stripBlobPrefix (l : List Char) : List Char :=
  match l with
  | 'b' :: 'l' :: 'o' :: 'b' :: ':' :: rest =>
      match rest.takeWhile (fun c => c ≠ '/'), rest.dropWhile (fun c => c ≠ '/') with
      | _ :: _, '/' :: tail => tail
      | _, _ => l
  | _ => l

/-- Embeds `.replace(/^[.]?[/]/, '')`: strips one leading `./` or `/`. -/
def stripDotSlash : List Char → List Char
  | '.' :: '/' :: rest => rest
  | '/' :: rest => rest
  | l => l

/-- Embeds `.replace(/^[/]/, '')`: strips one leading `/`. -/
def stripLeadingSlash : List Char → List Char
  | '/' :: rest => rest
  | l => l

/-- Embeds `.replace(/\\/g, '/')`: every backslash becomes a forward slash. -/
def backslashToSlash (l : List Char) : List Char :=
  l.map (fun c => if c = '\\' then '/' else c)

/-- Embeds `.split(/[?#]/)[0]`: the segment before the first `?` or `#`. -/
def takeUntilQueryOrHash (l : List Char) : List Char :=
  l.takeWhile (fun c => c ≠ '?' ∧ c ≠ '#')

/-- The post-decoding transformation chain of `normalizeAssetPath`, in the
source's order. -/
def normalizeSteps (l : List Char) : List Char :=
  takeUntilQueryOrHash
    (backslashToSlash (stripLeadingSlash (stripDotSlash (stripBlobPrefix l))))

/-- Embeds `normalizeAssetPath` from `HomeView.vue`.  The source applies
`decodeURIComponent` with no surrounding try/catch, so a decoding failure
propagates as an exception, modelled by `none`. -/
def normalizeAssetPath (path : String) : Option String :=
  (jsDecodeURIComponent path).map (fun d => String.mk (normalizeSteps d.data))

/-- A local `File` object as the viewer sees it: its `name`, its
`webkitRelativePath` (empty string when absent), and `contentId` standing for
the object identity of the underlying browser `File` (two distinct files may
share a name; the identity is what `Map.get` returns). -/
structure AssetFile where
  name : String
  relativePath : String
  contentId : Nat
deriving DecidableEq

/-- The Asset Index (`assetMap`): a JavaScript `Map<string, File>` modelled as
an association list with at most one entry per key. -/
def AssetMap := List (String × AssetFile)

instance : DecidableEq AssetMap := by
  unfold AssetMap
  infer_instance

/-- JavaScript `Map.prototype.set`: replaces the value of an existing key in
place, otherwise appends the binding. -/
def mapSet (m : AssetMap) (k : String) (v : AssetFile) : AssetMap :=
  match m with
  | [] => [(k, v)]
  | (k', v') :: rest => if k' = k then (k, v) :: rest else (k', v') :: mapSet rest k v

/-- JavaScript `Map.prototype.get` (`none` models `undefined`). -/
def mapGet (m : AssetMap) (k : String) : Option AssetFile :=
  match m with
  | [] => none
  | (k', v) :: rest => if k' = k then some v else mapGet rest k

/-- JavaScript `Set.prototype.add`: appends unless already present (a JS `Set`
iterates in insertion order). -/
def setAdd (keys : List String) (k : String) : List String :=
  if k ∈ keys then keys else keys ++ [k]

/-- Embeds `split('/').pop()`: the segment after the last slash (the whole
string when there is no slash, empty when the string ends in a slash). -/
def basenameOf (s : String) : String :=
  String.mk ((s.data.reverse.takeWhile (fun c => c ≠ '/')).reverse)

/-- Embeds the inner `addKey` of `findAssetFileByUrl`: normalizes the value
(its exception propagates, modelled by `none`), skips empty results, and adds
the normalized key, its lowercase form, and both forms of its basename. -/
def addKey (keys : List String) (value : String) : Option (List String) := do
  let normalized ← normalizeAssetPath value
  if normalized = "" then pure keys
  else
    let keys2 := setAdd (setAdd keys normalized) (jsLower normalized)
    let basename := basenameOf normalized
    if basename = "" then pure keys2
    else pure (setAdd (setAdd keys2 basename) (jsLower basename))

/-- Models `new URL(url, window.location.href).pathname` for the reference
shapes the viewer receives: path-relative and absolute-path references
resolved against the document origin (`scheme://host/`), with query and
fragment removed and a leading `./` collapsed.  References carrying their own
scheme (or otherwise containing `:`) are left unmodelled and yield `none`,
which the caller treats like the constructor's catch branch. -/
def urlPathname (url : String) : Option String :=
  if url.data.contains ':' then none
  else
    let noQH := takeUntilQueryOrHash url.data
    let path :=
      match noQH with
      | '.' :: '/' :: rest => rest
      | l => l
    match path with
    | '/' :: _ => some (String.mk path)
    | _ => some (String.mk ('/' :: path))

/-- The probing loop of `findAssetFileByUrl`: first key with a hit wins. -/
def probeKeys (m : AssetMap) : List String → Option AssetFile
  | [] => none
  | k :: rest =>
      match mapGet m k with
      | some f => some f
      | none => probeKeys m rest

/-- Embeds `findAssetFileByUrl`.  The outer `Option` models an uncaught
exception: `addKey url` sits outside the try/catch, while the
`addKey(parsed.pathname)` call sits inside it, so a decoding failure there is
swallowed and leaves the key set unchanged. -/
def findAssetFileByUrl (url : String) (m : AssetMap) : Option (Option AssetFile) := do
  let keys ← addKey [] url
  let keys2 :=
    match urlPathname url with
    | some p => (addKey keys p).getD keys
    | none => keys
  pure (probeKeys m keys2)

/-- The ordered key list `buildAssetMap` inserts for one file: normalized name
and its lowercase form always; when the file carries a non-empty normalized
relative path, also that path, its lowercase form, and (when non-empty) its
basename in both forms.  `none` models `normalizeAssetPath` throwing. -/
def fileEntryKeys (f : AssetFile) : Option (List String) := do
  let name ← normalizeAssetPath f.name
  let rel ← normalizeAssetPath f.relativePath
  if rel = "" then pure [name, jsLower name]
  else
    let basename := basenameOf rel
    if basename = "" then pure [name, jsLower name, rel, jsLower rel]
    else pure [name, jsLower name, rel, jsLower rel, basename, jsLower basename]

/-- One iteration of the `buildAssetMap` loop for a single file. -/
def insertFile (m : AssetMap) (f : AssetFile) : Option AssetMap := do
  let ks ← fileEntryKeys f
  pure (ks.foldl (fun acc k => mapSet acc k f) m)

/-- Embeds `buildAssetMap`: a fresh map populated file by file, later files
silently overwriting colliding keys. -/
def buildAssetMap (files : List AssetFile) : Option AssetMap :=
  files.foldlM insertFile []

/-- Embeds the `/^data:/i` test of `resolveAssetUrl`. -/
def isDataUri (url : String) : Bool :=
  jsLower (String.mk (url.data.take 5)) = "data:"

/-- One material reached by the `model.traverse` of `applyAdaptiveSceneLook`:
`isStandard` records whether it is a `MeshStandardMaterial` (only those are
sampled), `r`, `g`, `b` its base color channels and `metalness` its metalness
scalar, all exact rationals in place of the engine's floats. -/
structure SceneMaterial where
  isStandard : Bool
  r : ℚ
  g : ℚ
  b : ℚ
  metalness : ℚ
deriving DecidableEq

/-- The per-material perceptual luminance of `applyAdaptiveSceneLook`:
`c.r * 0.2126 + c.g * 0.7152 + c.b * 0.0722`. -/
def materialLuminance (m : SceneMaterial) : ℚ :=
  m.r * 0.2126 + m.g * 0.7152 + m.b * 0.0722

/-- The scene-look outputs: background color (as the hex literal from the
source), tone-mapping exposure, fill (hemisphere) light intensity and key
(directional) light intensity. -/
structure ScenePreset where
  bgColor : Nat
  exposure : ℚ
  fillIntensity : ℚ
  keyIntensity : ℚ
deriving DecidableEq

/-- Preset applied when the mean luminance is below `0.34` (a dark model):
background `0xf0f0ed`. -/
def presetLowLuminance : ScenePreset := ⟨0xf0f0ed, 1.12, 1.2, 1.25⟩

/-- Preset applied when the mean luminance is above `0.78` (a bright model):
background `0x242734`. -/
def presetHighLuminance : ScenePreset := ⟨0x242734, 0.92, 0.95, 1.45⟩

/-- Preset applied when the mean metalness is above `0.45` and luminance is
mid-range: background `0xdfe5ec`. -/
def presetMetal : ScenePreset := ⟨0xdfe5ec, 1.15, 1.18, 1.55⟩

/-- Neutral default preset: background `0xe8e8e8`. -/
def presetNeutral : ScenePreset := ⟨0xe8e8e8, 1, 1.1, 1.1⟩

/-- Embeds `applyAdaptiveSceneLook` from `HomeView.vue` on the flattened list
of materials its traversal visits (mesh children, arrays flattened): only
`MeshStandardMaterial`s are counted; averages default to `0.55` luminance and
`0` metalness when no material qualifies; the four presets are selected by the
source's threshold bands. -/
def applyAdaptiveSceneLook (mats : List SceneMaterial) : ScenePreset :=
  let qs := mats.filter (fun m => m.isStandard)
  let materialCount := qs.length
  let luminanceSum := (qs.map materialLuminance).sum
  let metallicSum := (qs.map SceneMaterial.metalness).sum
  let averageLuminance := if materialCount > 0 then luminanceSum / materialCount else 0.55
  let averageMetalness := if materialCount > 0 then metallicSum / materialCount else 0
  if averageLuminance < 0.34 then presetLowLuminance
  else if averageLuminance > 0.78 then presetHighLuminance
  else if averageMetalness > 0.45 then presetMetal
  else presetNeutral

/-- Mean luminance as §4.6 of the specification words it: the
human-vision-weighted channel sum accumulated over every qualifying material,
averaged, defaulting to the neutral midtone `0.55` when no material
qualifies.  Stated independently of `applyAdaptiveSceneLook` so the selection
theorem relates the code to the specification's quantities. -/
def specMeanLuminance (mats : List SceneMaterial) : ℚ :=
  let qs := mats.filter (fun m => m.isStandard)
  if qs.length > 0 then (qs.map materialLuminance).sum / qs.length else 0.55

/-- Mean metalness as §4.6 of the specification words it, defaulting to the
non-metal value `0`. -/
def specMeanMetalness (mats : List SceneMaterial) : ℚ :=
  let qs := mats.filter (fun m => m.isStandard)
  if qs.length > 0 then (qs.map SceneMaterial.metalness).sum / qs.length else 0

/-- Perceptual luminance of a `0xRRGGBB` background color, normalized to
`[0,1]`; used to state which presets have a dark versus a light background. -/
def bgColorLuminance (c : Nat) : ℚ :=
  ((c / 0x10000 % 0x100 : Nat) * 0.2126
    + (c / 0x100 % 0x100 : Nat) * 0.7152
    + (c % 0x100 : Nat) * 0.0722) / 255

/-- Camera and orbit-control outputs of `frameModel`. -/
structure FrameResult where
  distance : ℚ
  camX : ℚ
  camY : ℚ
  camZ : ℚ
  near : ℚ
  far : ℚ
  minDistance : ℚ
  maxDistance : ℚ
deriving DecidableEq

/-- Embeds `frameModel` from `HomeView.vue` on the bounding-box extents
`sizeX`, `sizeY`, `sizeZ`.  `tanHalfFov` stands for the value of the built-in
`Math.tan(fovRadians / 2)` with `fovRadians = camera.fov * π / 180`; the
numeric theorems constrain it to an interval bracketing the true tangent.
`Math.max(...) || 1` substitutes `1` for a zero (degenerate) extent. -/
def frameModel (sizeX sizeY sizeZ tanHalfFov : ℚ) : FrameResult :=
  let maxDimension := if max (max sizeX sizeY) sizeZ = 0 then 1 else max (max sizeX sizeY) sizeZ
  let distance := maxDimension / (2 * tanHalfFov)
  { distance := distance
    camX := distance * 1.2
    camY := distance * 0.8
    camZ := distance * 1.2
    near := max (distance / 120) 0.01
    far := max (distance * 120) 120
    minDistance := distance * 0.2
    maxDistance := distance * 8 }

/-- A glTF load result as the success callback consumes it: the scene object
(by identity) and the `extensionsRequired` / `extensionsUsed` lists extracted
by `extractExtensionInfo`. -/
structure GltfResult where
  sceneId : Nat
  required : List String
  used : List String
deriving DecidableEq

/-- A JavaScript value reaching the error callback: either a structured
`Error` carrying a `message`, or any other value with its `String(error)`
form. -/
inductive JsValue where
  | errorObj (message : String)
  | other (stringForm : String)
deriving DecidableEq

/-- Embeds `error instanceof Error ? error.message : String(error)`. -/
def jsErrorMessage : JsValue → String
  | JsValue.errorObj m => m
  | JsValue.other s => s

/-- The module-level mutable state of `HomeView.vue` that the load path and
its callbacks touch.  `sceneLive` and `loaderLive` model `scene` and
`gltfLoader` being non-null; `activeModel` holds the active model's identity;
`tracked` and `transient` are `trackedObjectUrls` and `transientResourceUrls`
with object URLs as sequentially allocated numbers (`nextId` is the
allocator); `revoked` logs every `URL.revokeObjectURL` call in order. -/
structure ViewerState where
  sceneLive : Bool
  loaderLive : Bool
  isLoading : Bool
  hasModel : Bool
  statusText : String
  activeModel : Option Nat
  requiredExtensions : List String
  usedExtensions : List String
  assetMap : AssetMap
  tracked : List Nat
  transient : List Nat
  revoked : List Nat
  nextId : Nat
deriving DecidableEq

/-- Embeds `revokeTrackedUrl`: revokes only a currently tracked URL and
removes it from the tracked set (idempotent by the membership guard). -/
def vRevokeTrackedUrl (st : ViewerState) (u : Nat) : ViewerState :=
  if u ∈ st.tracked then
    { st with tracked := st.tracked.erase u, revoked := st.revoked ++ [u] }
  else st

/-- Embeds `revokeTransientResourceUrls`: revokes every URL in the transient
list and empties it. -/
def vRevokeTransientUrls (st : ViewerState) : ViewerState :=
  { st with transient := [], revoked := st.revoked ++ st.transient }

/-- Embeds `clearModel`: with a live scene and an active model, removes and
disposes it; the extension lists are reset in either case. -/
def clearModelState (st : ViewerState) : ViewerState :=
  if st.sceneLive ∧ st.activeModel.isSome then
    { st with activeModel := none, hasModel := false,
              requiredExtensions := [], usedExtensions := [] }
  else
    { st with requiredExtensions := [], usedExtensions := [] }

/-- Embeds the success callback passed to `gltfLoader.load` in
`loadModelFromFileSet`, for the load whose primary object URL is `mainUrl`,
main file name `mainName` and file count `fileCount`: it returns immediately
when `scene` is null (stale callback), otherwise revokes the primary and
transient URLs, swaps the model and publishes extension info and status. -/
def onLoadSuccess (mainUrl : Nat) (mainName : String) (fileCount : Nat)
    (gltf : GltfResult) (st : ViewerState) : ViewerState :=
  if st.sceneLive = false then st
  else
    let st1 := vRevokeTransientUrls (vRevokeTrackedUrl st mainUrl)
    let st2 := clearModelState st1
    { st2 with
        activeModel := some gltf.sceneId
        requiredExtensions := gltf.required
        usedExtensions := gltf.used
        hasModel := true
        isLoading := false
        statusText := "已加载 " ++ mainName ++ "（共 " ++ toString fileCount ++ " 个文件）" }

/-- Embeds the error callback passed to `gltfLoader.load`: unconditionally
(no null-check) revokes the primary and transient URLs, resets the loading
flag, and publishes the fixed failure prefix with the error's message. -/
def onLoadFailure (mainUrl : Nat) (error : JsValue) (st : ViewerState) : ViewerState :=
  let st1 := vRevokeTransientUrls (vRevokeTrackedUrl st mainUrl)
  { st1 with
      isLoading := false
      statusText := "模型加载失败：" ++ jsErrorMessage error }

/-- Embeds the main-file test of `loadModelFromFileSet`:
`file.name.toLowerCase()` ends with `.glb` or `.gltf`. -/
def isModelFile (f : AssetFile) : Bool :=
  jsEndsWith (jsLower f.name) ".glb" || jsEndsWith (jsLower f.name) ".gltf"

/-- Embeds `files.find(...)`: the first file whose lowercased name has a
model extension. -/
def selectMainFile (files : List AssetFile) : Option AssetFile :=
  files.find? isModelFile

/-- Embeds the synchronous part of `loadModelFromFileSet` (everything before
the asynchronous `gltfLoader.load`, whose callbacks are `onLoadSuccess` and
`onLoadFailure`): the null guard, the main-file search with its early-return
status, the wholesale asset-map rebuild, the creation and tracking of the
primary object URL, and the loading status.  The outer `Option` models the
exception `buildAssetMap` can raise, which escapes before any mutation. -/
def loadModelFromFileSet (files : List AssetFile) (st : ViewerState) : Option ViewerState :=
  if ¬(st.loaderLive ∧ st.sceneLive) then some st
  else
    match selectMainFile files with
    | none => some { st with statusText := "请至少提供一个 .glb 或 .gltf 文件" }
    | some mainFile =>
        (buildAssetMap files).map fun m =>
          { st with
              assetMap := m
              tracked := st.tracked ++ [st.nextId]
              nextId := st.nextId + 1
              isLoading := true
              statusText := "正在加载 " ++ mainFile.name ++ "..." }

/-- Embeds `resolveAssetUrl` on the viewer state: pass-through (`none` in the
first component) when the asset map is empty, the URL is a `data:` URI, or no
file matches; otherwise a fresh object URL (`some handle`) is created and
pushed onto the transient list.  The outer `Option` models the exception
`findAssetFileByUrl` can raise. -/
def resolveAssetUrl (url : String) (st : ViewerState) : Option (Option Nat × ViewerState) :=
  if st.assetMap.length = 0 ∨ isDataUri url then some (none, st)
  else do
    let found ← findAssetFileByUrl url st.assetMap
    match found with
    | none => pure (none, st)
    | some _ =>
        pure (some st.nextId,
          { st with nextId := st.nextId + 1, transient := st.transient ++ [st.nextId] })

/-! ## Temporary-handle lifecycle across load generations

Trace semantics for the object-URL lifecycle of `HomeView.vue`: the module
state `trackedObjectUrls` / `transientResourceUrls`, the primary URL created
per call of `loadModelFromFileSet` (one load generation each), the revocations
performed by the load callbacks and `loadingManager.onLoad`, and the teardown
in `onBeforeUnmount`.  Handles are sequentially allocated numbers so that
creation and revocation counts can be compared exactly. -/

/-- Lifecycle state: `primaries` records each generation's primary object URL
in start order; `tracked` and `transient` embed `trackedObjectUrls` and
`transientResourceUrls`; `revoked` logs every `URL.revokeObjectURL` call (a
multiset, so double revocation would be visible); `resolvedLog` is ghost state
recording which in-flight load generation each transient handle was created
for — the source keeps no such record, which is exactly what C1 probes. -/
structure LifecycleState where
  nextId : Nat
  primaries : List Nat
  tracked : List Nat
  transient : List Nat
  revoked : List Nat
  resolvedLog : List (Nat × Nat)
deriving DecidableEq

/-- `revokeTrackedUrl` on the lifecycle state. -/
def lcRevokeTracked (s : LifecycleState) (u : Nat) : LifecycleState :=
  if u ∈ s.tracked then
    { s with tracked := s.tracked.erase u, revoked := s.revoked ++ [u] }
  else s

/-- `revokeTransientResourceUrls` on the lifecycle state. -/
def lcRevokeTransient (s : LifecycleState) : LifecycleState :=
  { s with transient := [], revoked := s.revoked ++ s.transient }

/-- Events of one viewer session, between `onMounted` and `onBeforeUnmount`:
a new `loadModelFromFileSet` call that reaches `gltfLoader.load` (starting
generation `primaries.length`), a `resolveAssetUrl` hit serving generation
`g`'s loader, generation `g`'s success or error callback firing, and the
deferred `loadingManager.onLoad` bulk revocation. -/
inductive LifecycleEvent where
  | startLoad
  | resolveAsset (g : Nat)
  | settleSuccess (g : Nat)
  | settleError (g : Nat)
  | managerLoadDone
deriving DecidableEq

/-- Handle effect shared by the success and error callbacks of generation
`g`: revoke that generation's primary URL, then revoke the whole transient
pool.  A generation that was never started has no callback (`none` case). -/
def lcSettle (s : LifecycleState) (g : Nat) : LifecycleState :=
  match s.primaries.get? g with
  | some p => lcRevokeTransient (lcRevokeTracked s p)
  | none => s

/-- One step of the lifecycle machine.  `resolveAsset g` appends the new
handle to the single shared `transientResourceUrls` list — the source does not
key it by generation — while the ghost `resolvedLog` remembers the requesting
generation `g`. -/
def lifecycleStep (s : LifecycleState) : LifecycleEvent → LifecycleState
  | LifecycleEvent.startLoad =>
      { s with
          nextId := s.nextId + 1
          primaries := s.primaries ++ [s.nextId]
          tracked := s.tracked ++ [s.nextId] }
  | LifecycleEvent.resolveAsset g =>
      { s with
          nextId := s.nextId + 1
          transient := s.transient ++ [s.nextId]
          resolvedLog := s.resolvedLog ++ [(g, s.nextId)] }
  | LifecycleEvent.settleSuccess g => lcSettle s g
  | LifecycleEvent.settleError g => lcSettle s g
  | LifecycleEvent.managerLoadDone => lcRevokeTransient s

/-- Fresh session state after `onMounted`. -/
def initLifecycle : LifecycleState := ⟨0, [], [], [], [], []⟩

/-- Runs a session's event trace from the fresh state. -/
def runLifecycle (evs : List LifecycleEvent) : LifecycleState :=
  evs.foldl lifecycleStep initLifecycle

/-- Embeds the `onBeforeUnmount` teardown: `revokeTransientResourceUrls()`
followed by revoking every remaining member of `trackedObjectUrls` and
clearing it. -/
def unmountLifecycle (s : LifecycleState) : LifecycleState :=
  let s1 := lcRevokeTransient s
  { s1 with tracked := [], revoked := s1.revoked ++ s1.tracked }

/-- Handles of a state that are still alive (created but not yet revoked). -/
def lcLive (s : LifecycleState) : List Nat :=
  s.tracked ++ s.transient

/-- Bookkeeping invariant of the lifecycle machine: every handle allocated so
far (`x < nextId`) is accounted for exactly once — either already revoked or
still sitting in exactly one pool — and no unallocated handle appears
anywhere.  In particular no handle is ever revoked twice. -/
def lcBalanced (s : LifecycleState) : Prop :=
  ∀ x : Nat, s.revoked.count x + s.tracked.count x + s.transient.count x
    = if x < s.nextId then 1 else 0

/-! ## Concrete fixtures for counterexamples and witnesses -/

/-- A `.bin` dependency supplied with relative-path metadata
`textures/Robot.BIN`, as in the specification's resolution property. -/
def robotFile : AssetFile := ⟨"Robot.BIN", "textures/Robot.BIN", 0⟩

/-- A second provided file whose name collides case-insensitively with
`robotFile`'s basename. -/
def decoyFile : AssetFile := ⟨"robot.bin", "", 1⟩

/-- A model file named `a.glb`. -/
def glbFileA : AssetFile := ⟨"a.glb", "", 0⟩

/-- A distinct model file also named `a.glb` (distinct object identity). -/
def glbFileB : AssetFile := ⟨"a.glb", "", 1⟩

/-- A texture file with no model extension. -/
def texFile : AssetFile := ⟨"tex.png", "", 7⟩

/-- A live viewer state between loads: scene and loader initialized. -/
def liveState : ViewerState :=
  { sceneLive := true, loaderLive := true, isLoading := false, hasModel := false
    statusText := "拖拽模型文件，或点击右下角“选择文件”开始预览"
    activeModel := none, requiredExtensions := [], usedExtensions := []
    assetMap := [], tracked := [], transient := [], revoked := [], nextId := 0 }

/-- A torn-down viewer state (after `onBeforeUnmount`) with a load still in
flight: scene and loader null, handle pools already emptied by the teardown,
loading flag still set. -/
def tornDownState : ViewerState :=
  { sceneLive := false, loaderLive := false, isLoading := true, hasModel := false
    statusText := "正在加载 a.glb..."
    activeModel := none, requiredExtensions := [], usedExtensions := []
    assetMap := [], tracked := [], transient := [], revoked := [0], nextId := 1 }

/-- An all-black standard material (base color `(0,0,0)`). -/
def blackMaterial : SceneMaterial := ⟨true, 0, 0, 0, 0⟩

/-- An all-white standard material (base color `(1,1,1)`). -/
def whiteMaterial : SceneMaterial := ⟨true, 1, 1, 1, 0⟩

/-- A live viewer state mid-load: the primary URL `0` tracked and two
transient dependency URLs outstanding. -/
def inFlightState : ViewerState :=
  { sceneLive := true, loaderLive := true, isLoading := true, hasModel := false
    statusText := "正在加载 a.glb..."
    activeModel := none, requiredExtensions := [], usedExtensions := []
    assetMap := [("a.glb", glbFileA)], tracked := [0], transient := [1, 2]
    revoked := [], nextId := 3 }

/-! ## Path normalizer lemmas -/

/-- Unfolding equation of `uriTokens` at a non-escape character. -/
theorem uriTokens_cons_of_ne (c : Char) (rest : List Char) (hc : ¬(c = '%')) :
    uriTokens (c :: rest) =
      (uriTokens rest).bind (fun toks => some (UriTok.plain c :: toks)) := by
  rw [uriTokens.eq_def]
  dsimp only
  rw [if_neg hc]
  rfl

/-- Unfolding equation of `utf8Run` at a literal token. -/
theorem utf8Run_plain_cons (c : Char) (rest : List UriTok) :
    utf8Run (UriTok.plain c :: rest) =
      (utf8Run rest).bind (fun cs => some (c :: cs)) := rfl

/-- Scanning a percent-free string yields exactly its literal characters. -/
theorem uriTokens_of_noPercent (l : List Char) (h : '%' ∉ l) :
    uriTokens l = some (l.map UriTok.plain) := by
  induction l with
  | nil => rfl
  | cons c rest ih =>
      have hc : ¬(c = '%') := fun hc => h (hc ▸ List.mem_cons_self c rest)
      rw [uriTokens_cons_of_ne c rest hc, ih (fun hm => h (List.mem_cons_of_mem _ hm))]
      rfl

/-- UTF-8 decoding of a pure literal stream returns the characters. -/
theorem utf8Run_plains (l : List Char) : utf8Run (l.map UriTok.plain) = some l := by
  induction l with
  | nil => rfl
  | cons c rest ih =>
      rw [List.map_cons, utf8Run_plain_cons, ih]
      rfl

/-- `decodeURIComponent` is the identity on percent-free strings. -/
theorem jsDecode_of_noPercent (s : String) (h : '%' ∉ s.data) :
    jsDecodeURIComponent s = some s := by
  obtain ⟨d⟩ := s
  show (do
    let toks ← uriTokens d
    let cs ← utf8Run toks
    pure (String.mk cs)) = some (String.mk d)
  rw [uriTokens_of_noPercent d h]
  show (do
    let cs ← utf8Run (d.map UriTok.plain)
    pure (String.mk cs)) = some (String.mk d)
  rw [utf8Run_plains]
  rfl

/-- Characters surviving the normalization chain are never `?`, `#` or a
backslash. -/
theorem mem_normalizeSteps {c : Char} {l : List Char} (h : c ∈ normalizeSteps l) :
    c ≠ '?' ∧ c ≠ '#' ∧ c ≠ '\\' := by
  unfold normalizeSteps takeUntilQueryOrHash at h
  have hq := List.mem_takeWhile_imp h
  simp only [decide_eq_true_eq] at hq
  have hmem : c ∈ backslashToSlash (stripLeadingSlash (stripDotSlash (stripBlobPrefix l))) :=
    (List.takeWhile_prefix _).subset h
  unfold backslashToSlash at hmem
  obtain ⟨a, _, ha⟩ := List.mem_map.mp hmem
  refine ⟨hq.1, hq.2, ?_⟩
  intro hcb
  subst hcb
  by_cases hab : a = '\\'
  · rw [if_pos hab] at ha
    exact absurd ha (by decide)
  · rw [if_neg hab] at ha
    exact hab ha

/-- A string fixed by every rewriting stage is fixed by normalization as a
whole. -/
theorem normalize_fixes_stable (t : String)
    (hp : '%' ∉ t.data)
    (hb : stripBlobPrefix t.data = t.data)
    (hd : stripDotSlash t.data = t.data)
    (hs : stripLeadingSlash t.data = t.data)
    (hq : ∀ c ∈ t.data, c ≠ '?' ∧ c ≠ '#')
    (hbs : '\\' ∉ t.data) :
    normalizeAssetPath t = some t := by
  unfold normalizeAssetPath
  rw [jsDecode_of_noPercent t hp]
  simp only [Option.map_some']
  unfold normalizeSteps
  rw [hb, hd, hs]
  have hmap : backslashToSlash t.data = t.data := by
    unfold backslashToSlash
    have := List.map_congr_left (l := t.data)
      (f := fun c => if c = '\\' then '/' else c) (g := id)
      (fun a ha => by
        have : a ≠ '\\' := fun hab => hbs (hab ▸ ha)
        simp [this])
    rw [this, List.map_id]
  rw [hmap]
  have htake : takeUntilQueryOrHash t.data = t.data := by
    unfold takeUntilQueryOrHash
    exact List.takeWhile_eq_self_iff.mpr (fun c hc => by
      simpa using hq c hc)
  rw [htake]

/-- C3 (counterexample): on the malformed percent-encoded input `"%"`,
`normalizeAssetPath` does not return a string — the `decodeURIComponent`
exception propagates (there is no try/catch and no fallback to the raw
string), contradicting the claim that it never throws. -/
theorem normalizeAssetPath_throws_on_lone_percent :
    normalizeAssetPath "%" = none := by decide

/-- C3 (amended): `normalizeAssetPath` returns a string exactly when the
percent-decoding of its input succeeds; when decoding fails the exception
propagates to the caller instead of falling back to the raw string. -/
theorem normalizeAssetPath_isSome_iff_decode (s : String) :
    (normalizeAssetPath s).isSome ↔ (jsDecodeURIComponent s).isSome := by
  unfold normalizeAssetPath
  cases jsDecodeURIComponent s <;> simp

/-- C4 (counterexample): normalization is not idempotent — on the
doubly-encoded input `"%2541"` one pass yields `"%41"` and a second pass
decodes again to `"A"`, so `normalize (normalize s) ≠ normalize s`. -/
theorem normalize_not_idempotent_on_doubly_encoded :
    (normalizeAssetPath "%2541").bind normalizeAssetPath
      ≠ normalizeAssetPath "%2541" := by decide

/-- C4 (amended): normalization is idempotent exactly on outputs that are
stable under its rewriting stages — when the normalized form contains no
percent sign and is fixed by the `blob:`-prefix, `./`-prefix and `/`-prefix
strips, a second normalization returns it unchanged.  (The remaining stages —
backslash replacement and query/fragment truncation — are always no-ops on an
output, proved here rather than assumed.) -/
theorem normalizeAssetPath_idempotent_on_stable (s t : String)
    (h : normalizeAssetPath s = some t)
    (hp : '%' ∉ t.data)
    (hb : stripBlobPrefix t.data = t.data)
    (hd : stripDotSlash t.data = t.data)
    (hs : stripLeadingSlash t.data = t.data) :
    normalizeAssetPath t = some t := by
  have hsteps : ∃ d : List Char, t.data = normalizeSteps d := by
    unfold normalizeAssetPath at h
    cases hdec : jsDecodeURIComponent s with
    | none => rw [hdec] at h; simp at h
    | some d =>
        rw [hdec] at h
        simp only [Option.map_some'] at h
        exact ⟨d.data, by rw [← Option.some_inj.mp h]⟩
  obtain ⟨d, hd2⟩ := hsteps
  apply normalize_fixes_stable t hp hb hd hs
  · intro c hc
    have hm := mem_normalizeSteps (hd2 ▸ hc)
    exact ⟨hm.1, hm.2.1⟩
  · intro hbs
    exact (mem_normalizeSteps (hd2 ▸ hbs)).2.2 rfl

/-- C4 (witness): the amended idempotence applied at the already-normalized
path `"textures/a.png"`, all hypotheses discharged by evaluation. -/
theorem normalizeAssetPath_idempotent_witness :
    normalizeAssetPath "textures/a.png" = some "textures/a.png" :=
  normalizeAssetPath_idempotent_on_stable "textures/a.png" "textures/a.png"
    (by decide) (by decide) (by decide) (by decide) (by decide)

/-! ## Adaptive scene look -/

/-- The selection of `applyAdaptiveSceneLook` written over the
specification-side means (same threshold structure as the source). -/
theorem applyAdaptiveSceneLook_eq (mats : List SceneMaterial) :
    applyAdaptiveSceneLook mats =
      if specMeanLuminance mats < 0.34 then presetLowLuminance
      else if specMeanLuminance mats > 0.78 then presetHighLuminance
      else if specMeanMetalness mats > 0.45 then presetMetal
      else presetNeutral := rfl

/-- C2 (counterexample): the claim's labelling of the luminance bands is
inverted relative to the code.  A model whose mean luminance is below the low
threshold (an all-black model, mean luminance `0 < 0.34`) receives the preset
with the LIGHT background `0xf0f0ed` (luminance `≈ 0.94 > 1/2`), not a
dark-background preset; the dark background `0x242734` (luminance
`≈ 0.15 < 1/2`) is applied only above the high threshold (all-white model). -/
theorem adaptive_look_band_labels_counterexample :
    specMeanLuminance [blackMaterial] < 0.34 ∧
    applyAdaptiveSceneLook [blackMaterial] = presetLowLuminance ∧
    bgColorLuminance presetLowLuminance.bgColor > 1/2 ∧
    specMeanLuminance [whiteMaterial] > 0.78 ∧
    applyAdaptiveSceneLook [whiteMaterial] = presetHighLuminance ∧
    bgColorLuminance presetHighLuminance.bgColor < 1/2 := by
  refine ⟨?_, ?_, ?_, ?_, ?_, ?_⟩ <;>
    norm_num [specMeanLuminance, applyAdaptiveSceneLook, blackMaterial, whiteMaterial,
      materialLuminance, bgColorLuminance, presetLowLuminance, presetHighLuminance]

/-- C2 (amended): `applyAdaptiveSceneLook` computes the mean perceptual
luminance (weights `0.2126/0.7152/0.0722`) and mean metalness over the
qualifying (standard) materials, with defaults `0.55` and `0`, and selects
exactly one of four fixed presets by threshold bands — but with the light
background `0xf0f0ed` below the low luminance threshold `0.34`, the dark cool
background `0x242734` above the high threshold `0.78`, the metal-forward
preset `0xdfe5ec` for mid-range luminance with mean metalness above `0.45`,
and the neutral default `0xe8e8e8` otherwise; every preset is a fixed
constant tuple of background, exposure and light intensities. -/
theorem applyAdaptiveSceneLook_band_selection (mats : List SceneMaterial) :
    (specMeanLuminance mats < 0.34 →
      applyAdaptiveSceneLook mats = presetLowLuminance) ∧
    (specMeanLuminance mats > 0.78 →
      applyAdaptiveSceneLook mats = presetHighLuminance) ∧
    (0.34 ≤ specMeanLuminance mats → specMeanLuminance mats ≤ 0.78 →
      specMeanMetalness mats > 0.45 →
      applyAdaptiveSceneLook mats = presetMetal) ∧
    (0.34 ≤ specMeanLuminance mats → specMeanLuminance mats ≤ 0.78 →
      specMeanMetalness mats ≤ 0.45 →
      applyAdaptiveSceneLook mats = presetNeutral) := by
  refine ⟨fun h => ?_, fun h => ?_, fun ha hb hc => ?_, fun ha hb hc => ?_⟩
  · rw [applyAdaptiveSceneLook_eq, if_pos h]
  · rw [applyAdaptiveSceneLook_eq, if_neg (by linarith), if_pos h]
  · rw [applyAdaptiveSceneLook_eq, if_neg (by linarith), if_neg (by linarith), if_pos hc]
  · rw [applyAdaptiveSceneLook_eq, if_neg (by linarith), if_neg (by linarith),
      if_neg (not_lt.mpr hc)]

/-- C2 (witness): the band selection applied to the all-black model. -/
theorem applyAdaptiveSceneLook_band_selection_witness :
    applyAdaptiveSceneLook [blackMaterial] = presetLowLuminance :=
  (applyAdaptiveSceneLook_band_selection [blackMaterial]).1
    (by norm_num [specMeanLuminance, blackMaterial, materialLuminance])

/-! ## Camera auto-framing -/

/-- C6: `frameModel` takes the largest axis extent (falling back to `1` when
degenerate), sets `distance = maxExtent / (2 * tanHalfFov)`, places the camera
at the oblique offset `(1.2 d, 0.8 d, 1.2 d)`, sets `near = max (d/120) 0.01`,
`far = max (d*120) 120`, and orbit limits `0.2 d` / `8 d`.  For the box with
extents `(2,2,2)` and a 55° vertical field of view, `tan 27.5° ≈ 0.520567`
lies in `[0.52, 0.5206]`, and for every tangent value in that interval the
distance is within `0.02` of `1.91`, the minimum orbit distance within `0.005`
of `0.382`, and the maximum within `0.1` of `15.3` — the claim's approximate
values. -/
theorem frameModel_spec (sx sy sz t : ℚ) :
    (max (max sx sy) sz ≠ 0 →
      (frameModel sx sy sz t).distance = max (max sx sy) sz / (2 * t)) ∧
    (max (max sx sy) sz = 0 →
      (frameModel sx sy sz t).distance = 1 / (2 * t)) ∧
    (frameModel sx sy sz t).camX = (frameModel sx sy sz t).distance * 1.2 ∧
    (frameModel sx sy sz t).camY = (frameModel sx sy sz t).distance * 0.8 ∧
    (frameModel sx sy sz t).camZ = (frameModel sx sy sz t).distance * 1.2 ∧
    (frameModel sx sy sz t).near = max ((frameModel sx sy sz t).distance / 120) 0.01 ∧
    (frameModel sx sy sz t).far = max ((frameModel sx sy sz t).distance * 120) 120 ∧
    (frameModel sx sy sz t).minDistance = (frameModel sx sy sz t).distance * 0.2 ∧
    (frameModel sx sy sz t).maxDistance = (frameModel sx sy sz t).distance * 8 ∧
    (0.52 ≤ t → t ≤ 0.5206 →
      |(frameModel 2 2 2 t).distance - 1.91| ≤ 0.02 ∧
      |(frameModel 2 2 2 t).minDistance - 0.382| ≤ 0.005 ∧
      |(frameModel 2 2 2 t).maxDistance - 15.3| ≤ 0.1) := by
  refine ⟨fun h => ?_, fun h => ?_, rfl, rfl, rfl, rfl, rfl, rfl, rfl, fun h1 h2 => ?_⟩
  · simp only [frameModel, if_neg h]
  · simp only [frameModel, if_pos h]
  · have ht : (0:ℚ) < 2 * t := by linarith
    have hmax : (if max (max (2:ℚ) 2) 2 = 0 then 1 else max (max (2:ℚ) 2) 2) = 2 := by
      norm_num
    have hd : (frameModel 2 2 2 t).distance = 2 / (2 * t) := by
      simp only [frameModel, hmax]
    have hub : (frameModel 2 2 2 t).distance ≤ 1.925 := by
      rw [hd, div_le_iff₀ ht]; nlinarith
    have hlb : (1.905:ℚ) ≤ (frameModel 2 2 2 t).distance := by
      rw [hd, le_div_iff₀ ht]; nlinarith
    have hmin : (frameModel 2 2 2 t).minDistance = (frameModel 2 2 2 t).distance * 0.2 := rfl
    have hmaxd : (frameModel 2 2 2 t).maxDistance = (frameModel 2 2 2 t).distance * 8 := rfl
    refine ⟨abs_le.mpr ⟨by linarith, by linarith⟩,
            abs_le.mpr ⟨by rw [hmin]; linarith, by rw [hmin]; linarith⟩,
            abs_le.mpr ⟨by rw [hmaxd]; linarith, by rw [hmaxd]; linarith⟩⟩

/-- C6 (witness): the framing theorem applied at the tangent value `0.5205`,
inside the bracketing interval. -/
theorem frameModel_spec_witness :
    |(frameModel 2 2 2 0.5205).distance - 1.91| ≤ 0.02 ∧
    |(frameModel 2 2 2 0.5205).minDistance - 0.382| ≤ 0.005 ∧
    |(frameModel 2 2 2 0.5205).maxDistance - 15.3| ≤ 0.1 :=
  (frameModel_spec 2 2 2 0.5205).2.2.2.2.2.2.2.2.2 (by norm_num) (by norm_num)

/-! ## Load entry point and its callbacks -/

/-- C9: when no provided file has a `.glb`/`.gltf` extension
(case-insensitively) and the session is live, `loadModelFromFileSet` only sets
the "no model file" status and returns: the resulting state differs from the
input in `statusText` alone, so the active model, the extension lists and the
asset index are unchanged and no object URL is created (`nextId` and `tracked`
untouched). -/
theorem loadModelFromFileSet_no_model_file (files : List AssetFile) (st : ViewerState)
    (hl : st.loaderLive = true) (hs : st.sceneLive = true)
    (hno : ∀ f ∈ files, isModelFile f = false) :
    loadModelFromFileSet files st =
      some { st with statusText := "请至少提供一个 .glb 或 .gltf 文件" } := by
  have hsel : selectMainFile files = none :=
    List.find?_eq_none.mpr (fun f hf => by rw [hno f hf]; simp)
  unfold loadModelFromFileSet
  rw [hsel]
  simp [hl, hs]

/-- C9 (witness): a texture-only file set against the live state. -/
theorem loadModelFromFileSet_no_model_file_witness :
    loadModelFromFileSet [texFile] liveState =
      some { liveState with statusText := "请至少提供一个 .glb 或 .gltf 文件" } :=
  loadModelFromFileSet_no_model_file [texFile] liveState rfl rfl (by decide)

/-- C8: whenever the load's error callback fires with the primary URL still
tracked, it revokes exactly the primary URL followed by every transient URL
accumulated so far, removes the primary from the tracked set, empties the
transient pool, resets the loading flag, and sets the status to the fixed
prefix `模型加载失败：` followed by the error's `message` when it is a
structured `Error` and its string form otherwise. -/
theorem onLoadFailure_releases_and_reports (mainUrl : Nat) (error : JsValue)
    (st : ViewerState) (h : mainUrl ∈ st.tracked) :
    (onLoadFailure mainUrl error st).revoked = st.revoked ++ [mainUrl] ++ st.transient ∧
    (onLoadFailure mainUrl error st).tracked = st.tracked.erase mainUrl ∧
    (onLoadFailure mainUrl error st).transient = [] ∧
    (onLoadFailure mainUrl error st).isLoading = false ∧
    (onLoadFailure mainUrl error st).statusText =
      "模型加载失败：" ++ (match error with
        | JsValue.errorObj m => m
        | JsValue.other s => s) := by
  unfold onLoadFailure vRevokeTransientUrls vRevokeTrackedUrl jsErrorMessage
  rw [if_pos h]
  cases error <;> simp

/-- C8 (witness): the error callback on the in-flight state with primary URL
`0` and transients `[1, 2]`. -/
theorem onLoadFailure_releases_and_reports_witness :
    (onLoadFailure 0 (JsValue.errorObj "boom") inFlightState).revoked = [0, 1, 2] ∧
    (onLoadFailure 0 (JsValue.errorObj "boom") inFlightState).statusText =
      "模型加载失败：boom" := by
  have h := onLoadFailure_releases_and_reports 0 (JsValue.errorObj "boom")
    inFlightState (by decide)
  exact ⟨by rw [h.1]; rfl, by rw [h.2.2.2.2]; rfl⟩

/-- C5 (counterexample): the error callback does not null-check the torn-down
session state before acting — fired after teardown it still mutates the shared
state (resetting the loading flag and overwriting the status text), so the
claim that both callbacks null-check and leave invalid state unmutated is
false. -/
theorem error_callback_mutates_torn_down_state :
    onLoadFailure 0 (JsValue.errorObj "boom") tornDownState ≠ tornDownState := by
  decide

/-- C5 (amended): the success callback null-checks `scene` and, when the scene
is gone, returns without mutating anything; the error callback performs no
such check and unconditionally resets the loading flag and status text, but
after teardown (both handle pools already emptied) its revocations are no-ops:
nothing is revoked and the pools stay empty. -/
theorem stale_callback_effects (mainUrl : Nat) (mainName : String) (fileCount : Nat)
    (gltf : GltfResult) (error : JsValue) (st : ViewerState)
    (hscene : st.sceneLive = false) :
    onLoadSuccess mainUrl mainName fileCount gltf st = st ∧
    (st.tracked = [] → st.transient = [] →
      onLoadFailure mainUrl error st =
        { st with isLoading := false
                  statusText := "模型加载失败：" ++ jsErrorMessage error }) := by
  constructor
  · unfold onLoadSuccess
    rw [hscene]
    simp
  · intro ht htr
    unfold onLoadFailure vRevokeTransientUrls vRevokeTrackedUrl
    rw [ht, htr]
    simp
    exact ⟨ht, htr⟩

/-- C5 (witness): the stale-callback behavior at the torn-down state. -/
theorem stale_callback_effects_witness :
    onLoadSuccess 0 "a.glb" 1 ⟨5, [], []⟩ tornDownState = tornDownState ∧
    onLoadFailure 0 (JsValue.errorObj "boom") tornDownState =
      { tornDownState with isLoading := false
                           statusText := "模型加载失败：boom" } := by
  have h := stale_callback_effects 0 "a.glb" 1 ⟨5, [], []⟩
    (JsValue.errorObj "boom") tornDownState rfl
  exact ⟨h.1, h.2 rfl rfl⟩

/-! ## Asset index lemmas -/

/-- `Map.get` after `Map.set`: the set key reads back the new value, every
other key is unaffected. -/
theorem mapGet_mapSet (m : AssetMap) (k : String) (v : AssetFile) (q : String) :
    mapGet (mapSet m k v) q = if k = q then some v else mapGet m q := by
  induction m with
  | nil => simp [mapSet, mapGet]
  | cons hd tl ih =>
      obtain ⟨k1, v1⟩ := hd
      by_cases h1 : k1 = k
      · subst h1
        simp only [mapSet, if_pos rfl]
        by_cases h2 : k1 = q
        · subst h2; simp [mapGet]
        · simp [mapGet, h2]
      · simp only [mapSet, if_neg h1]
        by_cases h2 : k1 = q
        · subst h2
          have hk : ¬(k = k1) := fun he => h1 he.symm
          simp [mapGet, hk]
        · simp [mapGet, h2, ih]

/-- Reading after inserting one file's whole key list. -/
theorem mapGet_foldl_mapSet (ks : List String) (f : AssetFile) (m : AssetMap) (q : String) :
    mapGet (ks.foldl (fun acc k => mapSet acc k f) m) q
      = if q ∈ ks then some f else mapGet m q := by
  induction ks generalizing m with
  | nil => simp
  | cons k ks ih =>
      simp only [List.foldl_cons]
      rw [ih]
      simp only [List.mem_cons]
      by_cases hq : q ∈ ks
      · simp [hq]
      · by_cases hk : q = k
        · simp [hk, hq, mapGet_mapSet]
        · have hk2 : ¬(k = q) := fun he => hk he.symm
          simp [hk, hq, mapGet_mapSet, hk2]

/-- A successful `insertFile` binds exactly the file's keys and frames the
rest of the map. -/
theorem insertFile_some {m : AssetMap} {f : AssetFile} {m' : AssetMap}
    (h : insertFile m f = some m') :
    ∃ ks, fileEntryKeys f = some ks ∧
      ∀ q, mapGet m' q = if q ∈ ks then some f else mapGet m q := by
  unfold insertFile at h
  cases hks : fileEntryKeys f with
  | none => rw [hks] at h; simp at h
  | some ks =>
      rw [hks] at h
      simp only [Option.bind_eq_bind, Option.some_bind, Option.pure_def,
        Option.some_inj] at h
      exact ⟨ks, rfl, fun q => by rw [← h, mapGet_foldl_mapSet]⟩

/-- Keys no remaining file mentions are untouched by the rest of the build. -/
theorem foldlM_insert_frame :
    ∀ (files : List AssetFile) (m0 m : AssetMap),
      files.foldlM insertFile m0 = some m →
      ∀ q : String,
        (∀ g ∈ files, ∀ ks', fileEntryKeys g = some ks' → q ∉ ks') →
        mapGet m q = mapGet m0 q := by
  intro files
  induction files with
  | nil => intro m0 m h q _; simp only [List.foldlM_nil, Option.pure_def, Option.some_inj] at h; rw [h]
  | cons g gs ih =>
      intro m0 m h q hno
      rw [List.foldlM_cons] at h
      obtain ⟨m1, hm1, hrest⟩ := Option.bind_eq_some.mp h
      obtain ⟨ks, hks, hget⟩ := insertFile_some hm1
      have h1 : mapGet m q = mapGet m1 q :=
        ih m1 m hrest q (fun g' hg' => hno g' (List.mem_cons_of_mem _ hg'))
      rw [h1, hget q, if_neg (hno g (List.mem_cons_self _ _) ks hks)]

/-- A bound key stays bound through the rest of the build. -/
theorem foldlM_insert_mono :
    ∀ (files : List AssetFile) (m0 m : AssetMap),
      files.foldlM insertFile m0 = some m →
      ∀ q : String, (mapGet m0 q).isSome → (mapGet m q).isSome := by
  intro files
  induction files with
  | nil =>
      intro m0 m h q hq
      simp only [List.foldlM_nil, Option.pure_def, Option.some_inj] at h
      exact h ▸ hq
  | cons g gs ih =>
      intro m0 m h q hq
      rw [List.foldlM_cons] at h
      obtain ⟨m1, hm1, hrest⟩ := Option.bind_eq_some.mp h
      obtain ⟨ks, _, hget⟩ := insertFile_some hm1
      refine ih m1 m hrest q ?_
      rw [hget q]
      by_cases hin : q ∈ ks
      · simp [hin]
      · simpa [hin] using hq

/-- A key owned by exactly one provided file resolves to that file in the
final index, whatever the build started from for that key. -/
theorem foldlM_insert_get_of_unique :
    ∀ (files : List AssetFile) (m0 m : AssetMap),
      files.foldlM insertFile m0 = some m →
      ∀ (f : AssetFile) (ks : List String) (q : String),
        f ∈ files → fileEntryKeys f = some ks → q ∈ ks →
        (∀ g ∈ files, g ≠ f → ∀ ks', fileEntryKeys g = some ks' → q ∉ ks') →
        mapGet m q = some f := by
  intro files
  induction files with
  | nil => intro _ _ _ f _ _ hf; exact absurd hf (List.not_mem_nil f)
  | cons g gs ih =>
      intro m0 m h f ks q hf hks hq hno
      rw [List.foldlM_cons] at h
      obtain ⟨m1, hm1, hrest⟩ := Option.bind_eq_some.mp h
      by_cases hfgs : f ∈ gs
      · exact ih m1 m hrest f ks q hfgs hks hq
          (fun g' hg' => hno g' (List.mem_cons_of_mem _ hg'))
      · have hfg : f = g := by
          rcases List.mem_cons.mp hf with h' | h'
          · exact h'
          · exact absurd h' hfgs
        subst hfg
        obtain ⟨ks1, hks1, hget⟩ := insertFile_some hm1
        rw [hks] at hks1
        have hks1' : ks = ks1 := Option.some_inj.mp hks1
        subst hks1'
        have hstep : mapGet m1 q = some f := by rw [hget q, if_pos hq]
        have hframe : mapGet m q = mapGet m1 q :=
          foldlM_insert_frame gs m1 m hrest q
            (fun g' hg' => hno g' (List.mem_cons_of_mem _ hg')
              (fun he => hfgs (he ▸ hg')))
        rw [hframe, hstep]

/-- Every key of every provided file ends up bound in the final index. -/
theorem foldlM_insert_get_isSome :
    ∀ (files : List AssetFile) (m0 m : AssetMap),
      files.foldlM insertFile m0 = some m →
      ∀ (f : AssetFile) (ks : List String) (q : String),
        f ∈ files → fileEntryKeys f = some ks → q ∈ ks →
        (mapGet m q).isSome := by
  intro files
  induction files with
  | nil => intro _ _ _ f _ _ hf; exact absurd hf (List.not_mem_nil f)
  | cons g gs ih =>
      intro m0 m h f ks q hf hks hq
      rw [List.foldlM_cons] at h
      obtain ⟨m1, hm1, hrest⟩ := Option.bind_eq_some.mp h
      rcases List.mem_cons.mp hf with hfg | hfgs
      · subst hfg
        obtain ⟨ks1, hks1, hget⟩ := insertFile_some hm1
        rw [hks] at hks1
        have hks1' : ks = ks1 := Option.some_inj.mp hks1
        subst hks1'
        refine foldlM_insert_mono gs m1 m hrest q ?_
        rw [hget q, if_pos hq]
        rfl
      · exact ih m1 m hrest f ks q hfgs hks hq

/-- Values returned by `mapGet` are values stored in the index. -/
theorem mapGet_mem_values {m : AssetMap} {q : String} {v : AssetFile}
    (h : mapGet m q = some v) : v ∈ m.map Prod.snd := by
  induction m with
  | nil => simp [mapGet] at h
  | cons hd tl ih =>
      obtain ⟨k1, v1⟩ := hd
      by_cases hk : k1 = q
      · simp only [mapGet, if_pos hk, Option.some_inj] at h
        simp [h]
      · simp only [mapGet, if_neg hk] at h
        simp [ih h]

/-- The probing loop takes the first key with a hit. -/
theorem probeKeys_cons_some {m : AssetMap} {k : String} {f : AssetFile}
    (rest : List String) (h : mapGet m k = some f) :
    probeKeys m (k :: rest) = some f := by
  unfold probeKeys
  rw [h]

/-- The probing loop skips unbound keys. -/
theorem probeKeys_cons_none {m : AssetMap} {k : String} (rest : List String)
    (h : mapGet m k = none) :
    probeKeys m (k :: rest) = probeKeys m rest := by
  have e : probeKeys m (k :: rest) =
      (match mapGet m k with
        | some f => some f
        | none => probeKeys m rest) := rfl
  rw [e, h]

/-- `find?` returns the first match: the list splits at the result with no
earlier match. -/
theorem find?_first_split {α : Type} {p : α → Bool} :
    ∀ {l : List α} {a : α}, l.find? p = some a →
      ∃ pre post, l = pre ++ a :: post ∧ ∀ g ∈ pre, p g = false := by
  intro l
  induction l with
  | nil => intro a h; simp at h
  | cons x xs ih =>
      intro a h
      by_cases hx : p x = true
      · rw [List.find?_cons_of_pos _ hx, Option.some_inj] at h
        exact ⟨[], xs, by simp [h], by simp⟩
      · rw [List.find?_cons_of_neg _ hx] at h
        obtain ⟨pre, post, heq, hpre⟩ := ih h
        refine ⟨x :: pre, post, by simp [heq], fun g hg => ?_⟩
        rcases List.mem_cons.mp hg with h' | h'
        · subst h'; exact Bool.eq_false_iff.mpr hx
        · exact hpre g h'

/-- C7 (counterexample): the claim quantifies over every file set containing
`Robot.BIN` at `textures/Robot.BIN`, but adding a second file whose name
collides case-insensitively with the basename makes `buildAssetMap`'s
last-write-wins overwrite the `robot.bin` key, so resolving `"robot.bin"`
yields the colliding file, not `Robot.BIN`. -/
theorem robot_basename_collision_counterexample :
    (buildAssetMap [robotFile, decoyFile]).map
        (fun m => findAssetFileByUrl "robot.bin" m) = some (some (some decoyFile)) ∧
    decoyFile ≠ robotFile := by decide

/-- C7 (amended): in every file set containing `Robot.BIN` with relative path
`textures/Robot.BIN` in which no other file produces a key colliding
case-insensitively with that name or path, each of the three reference
strings `"./textures/robot.bin"`, `"robot.bin"` and `"TEXTURES/ROBOT.BIN"`
resolves through the built Asset Index to that same file. -/
theorem robot_refs_resolve (files : List AssetFile) (m : AssetMap) (i : Nat)
    (hmem : (⟨"Robot.BIN", "textures/Robot.BIN", i⟩ : AssetFile) ∈ files)
    (hbuild : buildAssetMap files = some m)
    (hno : ∀ g ∈ files, g ≠ (⟨"Robot.BIN", "textures/Robot.BIN", i⟩ : AssetFile) →
      ∀ ks, fileEntryKeys g = some ks →
        ∀ q ∈ (["Robot.BIN", "robot.bin", "textures/Robot.BIN", "textures/robot.bin",
                "ROBOT.BIN", "TEXTURES/ROBOT.BIN"] : List String), q ∉ ks) :
    findAssetFileByUrl "./textures/robot.bin" m
        = some (some ⟨"Robot.BIN", "textures/Robot.BIN", i⟩) ∧
    findAssetFileByUrl "robot.bin" m
        = some (some ⟨"Robot.BIN", "textures/Robot.BIN", i⟩) ∧
    findAssetFileByUrl "TEXTURES/ROBOT.BIN" m
        = some (some ⟨"Robot.BIN", "textures/Robot.BIN", i⟩) := by
  have hkeys : fileEntryKeys (⟨"Robot.BIN", "textures/Robot.BIN", i⟩ : AssetFile)
      = some ["Robot.BIN", "robot.bin", "textures/Robot.BIN", "textures/robot.bin",
              "Robot.BIN", "robot.bin"] := rfl
  have hget : ∀ q ∈ (["textures/robot.bin", "robot.bin"] : List String),
      mapGet m q = some ⟨"Robot.BIN", "textures/Robot.BIN", i⟩ := by
    intro q hq
    refine foldlM_insert_get_of_unique files [] m hbuild _ _ q hmem hkeys ?_ ?_
    · rcases List.mem_cons.mp hq with h' | h'
      · subst h'; simp
      · rcases List.mem_cons.mp h' with h'' | h''
        · subst h''; simp
        · simp at h''
    · intro g hg hne ks hks
      refine hno g hg hne ks hks q ?_
      rcases List.mem_cons.mp hq with h' | h'
      · subst h'; simp
      · rcases List.mem_cons.mp h' with h'' | h''
        · subst h''; simp
        · simp at h''
  have hnone : ∀ q ∈ (["TEXTURES/ROBOT.BIN", "ROBOT.BIN"] : List String),
      mapGet m q = none := by
    intro q hq
    have hframe := foldlM_insert_frame files [] m hbuild q ?hno'
    · exact hframe
    case hno' =>
      intro g hg ks hks
      by_cases hgr : g = (⟨"Robot.BIN", "textures/Robot.BIN", i⟩ : AssetFile)
      · subst hgr
        rw [hkeys, Option.some_inj] at hks
        subst hks
        rcases List.mem_cons.mp hq with h' | h'
        · subst h'; decide
        · rcases List.mem_cons.mp h' with h'' | h''
          · subst h''; decide
          · simp at h''
      · refine hno g hg hgr ks hks q ?_
        rcases List.mem_cons.mp hq with h' | h'
        · subst h'; simp
        · rcases List.mem_cons.mp h' with h'' | h''
          · subst h''; simp
          · simp at h''
  have e1 : findAssetFileByUrl "./textures/robot.bin" m
      = some (probeKeys m ["textures/robot.bin", "robot.bin"]) := rfl
  have e2 : findAssetFileByUrl "robot.bin" m
      = some (probeKeys m ["robot.bin"]) := rfl
  have e3 : findAssetFileByUrl "TEXTURES/ROBOT.BIN" m
      = some (probeKeys m ["TEXTURES/ROBOT.BIN", "textures/robot.bin",
                           "ROBOT.BIN", "robot.bin"]) := rfl
  refine ⟨?_, ?_, ?_⟩
  · rw [e1, probeKeys_cons_some _ (hget _ (by simp))]
  · rw [e2, probeKeys_cons_some _ (hget _ (by simp))]
  · rw [e3, probeKeys_cons_none _ (hnone _ (by simp)),
      probeKeys_cons_some _ (hget _ (by simp))]

/-- C7 (witness): the amended resolution property on the singleton file set
containing only `Robot.BIN`. -/
theorem robot_refs_resolve_witness :
    findAssetFileByUrl "./textures/robot.bin"
        [("Robot.BIN", robotFile), ("robot.bin", robotFile),
         ("textures/Robot.BIN", robotFile), ("textures/robot.bin", robotFile)]
      = some (some robotFile) ∧
    findAssetFileByUrl "robot.bin"
        [("Robot.BIN", robotFile), ("robot.bin", robotFile),
         ("textures/Robot.BIN", robotFile), ("textures/robot.bin", robotFile)]
      = some (some robotFile) ∧
    findAssetFileByUrl "TEXTURES/ROBOT.BIN"
        [("Robot.BIN", robotFile), ("robot.bin", robotFile),
         ("textures/Robot.BIN", robotFile), ("textures/robot.bin", robotFile)]
      = some (some robotFile) :=
  robot_refs_resolve [robotFile] _ 0 (by decide) (by decide)
    (fun g hg hne _ _ _ _ => absurd (List.mem_singleton.mp hg) hne)

/-- C10 (counterexample): with two distinct files both named `a.glb`, the
first is selected as the primary model, yet after the wholesale rebuild the
Asset Index contains no binding to it — its every key was overwritten by the
later file — so "every provided file is still indexed" fails. -/
theorem duplicate_name_shadows_counterexample :
    selectMainFile [glbFileA, glbFileB] = some glbFileA ∧
    buildAssetMap [glbFileA, glbFileB] = some [("a.glb", glbFileB)] ∧
    glbFileA ∉ ([("a.glb", glbFileB)] : AssetMap).map Prod.snd := by decide

/-- C10 (amended): with a live session, `loadModelFromFileSet` selects as
primary the first file (in list order) whose lowercased name ends in `.glb`
or `.gltf` — every earlier file fails the extension test — rebuilds the Asset
Index from the whole provided list, creates and tracks exactly one primary
object URL, and every key of every provided file is bound in the rebuilt
index (to the last colliding file, so an earlier file all of whose keys are
overwritten is no longer retrievable). -/
theorem loadModel_selects_first_model_file (files : List AssetFile) (st : ViewerState)
    (m : AssetMap) (f0 : AssetFile)
    (hl : st.loaderLive = true) (hs : st.sceneLive = true)
    (hf0 : f0 ∈ files) (hf0m : isModelFile f0 = true)
    (hbuild : buildAssetMap files = some m) :
    ∃ mf, selectMainFile files = some mf ∧ isModelFile mf = true ∧
      (∃ pre post, files = pre ++ mf :: post ∧ ∀ g ∈ pre, isModelFile g = false) ∧
      loadModelFromFileSet files st =
        some { st with assetMap := m
                       tracked := st.tracked ++ [st.nextId]
                       nextId := st.nextId + 1
                       isLoading := true
                       statusText := "正在加载 " ++ mf.name ++ "..." } ∧
      (∀ f ∈ files, ∀ ks, fileEntryKeys f = some ks →
        ∀ q ∈ ks, (mapGet m q).isSome) := by
  have hsome : (files.find? isModelFile).isSome := by
    rw [List.find?_isSome]
    exact ⟨f0, hf0, hf0m⟩
  obtain ⟨mf, hmf⟩ := Option.isSome_iff_exists.mp hsome
  refine ⟨mf, hmf, List.find?_some hmf, find?_first_split hmf, ?_, ?_⟩
  · unfold loadModelFromFileSet
    rw [if_neg (by simp [hl, hs])]
    have hsel : selectMainFile files = some mf := hmf
    rw [hsel, hbuild]
    rfl
  · intro f hf ks hks q hq
    exact foldlM_insert_get_isSome files [] m hbuild f ks q hf hks hq

/-- C10 (witness): primary selection and indexing on `[texFile, glbFileA]` —
the model file is second in the list but first (and only) extension match. -/
theorem loadModel_selects_first_model_file_witness :
    selectMainFile [texFile, glbFileA] = some glbFileA ∧
    loadModelFromFileSet [texFile, glbFileA] liveState =
      some { liveState with
               assetMap := [("tex.png", texFile), ("a.glb", glbFileA)]
               tracked := [0], nextId := 1, isLoading := true
               statusText := "正在加载 a.glb..." } := by
  obtain ⟨mf, h1, _, _, h4, _⟩ := loadModel_selects_first_model_file
    [texFile, glbFileA] liveState [("tex.png", texFile), ("a.glb", glbFileA)]
    glbFileA rfl rfl (by decide) (by decide) (by decide)
  have hmf : mf = glbFileA := by
    rw [show selectMainFile [texFile, glbFileA] = some glbFileA from by decide] at h1
    exact (Option.some_inj.mp h1).symm
  subst hmf
  exact ⟨h1, h4⟩

/-! ## Temporary-handle lifecycle theorems -/

/-- The fresh session is balanced. -/
theorem lcBalanced_init : lcBalanced initLifecycle := by
  intro x
  simp [initLifecycle]

/-- Bulk transient revocation moves handles from the pool to the revocation
log without double-counting. -/
theorem lcBalanced_revokeTransient {s : LifecycleState} (h : lcBalanced s) :
    lcBalanced (lcRevokeTransient s) := by
  intro x
  have hx := h x
  simp only [lcRevokeTransient, List.count_append, List.count_nil]
  omega

/-- Guarded primary revocation moves (at most) one occurrence from the
tracked set to the revocation log. -/
theorem lcBalanced_revokeTracked {s : LifecycleState} (h : lcBalanced s) (u : Nat) :
    lcBalanced (lcRevokeTracked s u) := by
  intro x
  have hx := h x
  unfold lcRevokeTracked
  by_cases hu : u ∈ s.tracked
  · have hpos : 0 < s.tracked.count u := List.count_pos_iff.mpr hu
    simp only [if_pos hu, List.count_append, List.count_singleton, List.count_erase,
      beq_iff_eq]
    by_cases hxu : u = x
    · simp only [if_pos hxu]
      subst hxu
      omega
    · simp only [if_neg hxu]
      omega
  · simpa [if_neg hu] using hx

/-- A settle (success or error callback) preserves the balance. -/
theorem lcBalanced_settle {s : LifecycleState} (h : lcBalanced s) (g : Nat) :
    lcBalanced (lcSettle s g) := by
  unfold lcSettle
  cases s.primaries.get? g with
  | none => exact h
  | some p => exact lcBalanced_revokeTransient (lcBalanced_revokeTracked h p)

/-- Every lifecycle event preserves the balance. -/
theorem lcBalanced_step {s : LifecycleState} (h : lcBalanced s) (e : LifecycleEvent) :
    lcBalanced (lifecycleStep s e) := by
  cases e with
  | startLoad =>
      intro x
      have hx := h x
      simp only [lifecycleStep, List.count_append, List.count_singleton, beq_iff_eq]
      by_cases hxn : s.nextId = x
      · simp only [if_pos hxn]
        subst hxn
        rw [if_neg (lt_irrefl _)] at hx
        rw [if_pos (Nat.lt_succ_self _)]
        omega
      · simp only [if_neg hxn]
        by_cases hlt : x < s.nextId
        · rw [if_pos hlt] at hx
          rw [if_pos (Nat.lt_succ_of_lt hlt)]
          omega
        · rw [if_neg hlt] at hx
          rw [if_neg (show ¬(x < s.nextId + 1) by omega)]
          omega
  | resolveAsset g =>
      intro x
      have hx := h x
      simp only [lifecycleStep, List.count_append, List.count_singleton, beq_iff_eq]
      by_cases hxn : s.nextId = x
      · simp only [if_pos hxn]
        subst hxn
        rw [if_neg (lt_irrefl _)] at hx
        rw [if_pos (Nat.lt_succ_self _)]
        omega
      · simp only [if_neg hxn]
        by_cases hlt : x < s.nextId
        · rw [if_pos hlt] at hx
          rw [if_pos (Nat.lt_succ_of_lt hlt)]
          omega
        · rw [if_neg hlt] at hx
          rw [if_neg (show ¬(x < s.nextId + 1) by omega)]
          omega
  | settleSuccess g => exact lcBalanced_settle h g
  | settleError g => exact lcBalanced_settle h g
  | managerLoadDone => exact lcBalanced_revokeTransient h

/-- Any session trace ends balanced. -/
theorem lcBalanced_run (evs : List LifecycleEvent) : lcBalanced (runLifecycle evs) := by
  unfold runLifecycle
  induction evs using List.reverseRecOn with
  | nil => exact lcBalanced_init
  | append_singleton evs e ih =>
      rw [List.foldl_append]
      exact lcBalanced_step ih e

/-- C1 (counterexample): the transient pool is one shared list, not keyed per
load generation.  In the trace "start load 0, start load 1, resolve an asset
for load 1, load 0's error callback fires", generation 0's settle revokes
handle `2` — which the ghost log shows was created for generation 1 — while
generation 1 is still in flight (its primary `1` is still tracked).  Settling
one generation therefore does release the other generation's handles, and
does so while they may still be referenced by in-flight requests. -/
theorem cross_generation_release_counterexample :
    (1, 2) ∈ (runLifecycle [LifecycleEvent.startLoad, LifecycleEvent.startLoad,
        LifecycleEvent.resolveAsset 1, LifecycleEvent.settleError 0]).resolvedLog ∧
    2 ∈ (runLifecycle [LifecycleEvent.startLoad, LifecycleEvent.startLoad,
        LifecycleEvent.resolveAsset 1, LifecycleEvent.settleError 0]).revoked ∧
    1 ∈ (runLifecycle [LifecycleEvent.startLoad, LifecycleEvent.startLoad,
        LifecycleEvent.resolveAsset 1, LifecycleEvent.settleError 0]).tracked := by
  decide

/-- C1 (amended): across every session trace — loads that succeed, fail, or
are superseded by overlapping loads — after the unmount teardown both handle
pools are empty, every handle allocated during the session has been revoked
exactly once, and nothing else was ever revoked.  (The per-generation
independence part of the original claim is false; see the counterexample.) -/
theorem handles_released_exactly_once (evs : List LifecycleEvent) :
    (unmountLifecycle (runLifecycle evs)).tracked = [] ∧
    (unmountLifecycle (runLifecycle evs)).transient = [] ∧
    (∀ x : Nat, x < (unmountLifecycle (runLifecycle evs)).nextId →
      (unmountLifecycle (runLifecycle evs)).revoked.count x = 1) ∧
    (∀ x : Nat, (unmountLifecycle (runLifecycle evs)).nextId ≤ x →
      (unmountLifecycle (runLifecycle evs)).revoked.count x = 0) := by
  have hbal : lcBalanced (runLifecycle evs) := lcBalanced_run evs
  set s := runLifecycle evs with hs
  have hfin : ∀ x : Nat, (unmountLifecycle s).revoked.count x
      = if x < s.nextId then 1 else 0 := by
    intro x
    have hx := hbal x
    simp only [unmountLifecycle, lcRevokeTransient, List.count_append]
    omega
  have hnext : (unmountLifecycle s).nextId = s.nextId := rfl
  refine ⟨rfl, rfl, fun x hx => ?_, fun x hx => ?_⟩
  · rw [hnext] at hx
    rw [hfin x, if_pos hx]
  · rw [hnext] at hx
    rw [hfin x, if_neg (by omega)]

/-- C1 (witness): a one-load session with one resolved dependency — both
handles are revoked exactly once by session end. -/
theorem handles_released_exactly_once_witness :
    (unmountLifecycle (runLifecycle [LifecycleEvent.startLoad,
        LifecycleEvent.resolveAsset 0, LifecycleEvent.settleSuccess 0])).revoked.count 1 = 1 :=
  (handles_released_exactly_once
    [LifecycleEvent.startLoad, LifecycleEvent.resolveAsset 0,
     LifecycleEvent.settleSuccess 0]).2.2.1 1 (by decide)

end ModelViewer
